import Mathlib

/-!
Verification of the knyst Controller / Commands-facade core
(`src/knyst/src/controller.rs`, `src/src/trig.rs`).

The Rust code is shallowly embedded:
* `Superbeats` (fixed-point musical time, defined outside the provided
  sources) is modelled from the spec as a `Nat` counting units of
  1/2^32 beat.
* Panicking operations (`unwrap`) are modelled with `Except`, where
  `Abnormal.panicked` is a panic and `Abnormal.diverged` a loop that
  never terminates.
* The `Graph`, an external collaborator, is modelled as a response
  oracle plus a log of the calls the Controller makes on it.
* Sample values (`f32`) are modelled as rationals; the only values that
  occur in the claims are the exact constants 0.0 and 1.0.
-/

namespace Knyst

/-- Modelled from the spec: `Superbeats` is fixed-point musical time,
"precise to at least 1/2^32 of the unit" (the actual `time.rs` is not
among the provided sources). We count units of 1/2^32 beat as a `Nat`.
`Superbeats::from_beats(i)` is then `i * 2^32` and the fixed-point
product `b * Superbeats::from_beats(i)` is `b * i` in units. -/
abbrev Superbeats := Nat

/-- Model of `Superbeats::from_beats(i)`: whole beats as fixed-point units. -/
def Superbeats.from_beats (i : Nat) : Superbeats := i * 2 ^ 32

/-- Model of `Superbeats::from_beats_f32(0.25)`: a quarter beat, `2^32 / 4` units. -/
def quarterBeat : Superbeats := 2 ^ 30

/-- The `Time` tag union (graph module; shape taken from the spec and
from how `controller.rs` uses it: `Time::Immediately` is the default). -/
inductive TimeM where
  | immediately
  | superseconds (s : Nat)
  | superbeats (b : Superbeats)
  deriving DecidableEq, Repr

/-- The input half of a `ParameterChange`: `{node, channel}`. -/
structure NodeInput where
  node : Nat
  channel : Nat
  deriving DecidableEq, Repr

/-- Model of `ParameterChange {input, value, time}` (spec §3). -/
structure ParameterChange where
  input : NodeInput
  value : ℚ
  time : TimeM
  deriving DecidableEq, Repr

/-- Model of `NodeChanges {node, parameters, offset}` (spec §3, used verbatim in
`MultiThreadedKnystCommands::schedule_change`). -/
structure NodeChanges where
  node : Nat
  parameters : List (Nat × ℚ)
  offset : Option TimeM
  deriving DecidableEq, Repr

/-- Model of `SimultaneousChanges {time, changes}` (spec §3). -/
structure SimultaneousChanges where
  time : TimeM
  changes : List NodeChanges
  deriving DecidableEq, Repr

/-- Model of `Connection` is opaque to the Controller; it is only forwarded. -/
abbrev Connection := Nat

/-- Model of `ConnectionError`, distinguishing the variants `apply_command`
matches on; all remaining variants are collapsed into `other`. -/
inductive ConnectionError where
  | sourceNodeNotPushed
  | sinkNodeNotPushed
  | graphNotFound (g : Nat)
  | other (k : Nat)
  deriving DecidableEq, Repr

/-- Model of `FreeError`, distinguishing `NodeNotFound` as `apply_command` does. -/
inductive FreeError where
  | nodeNotFound
  | other (k : Nat)
  deriving DecidableEq, Repr

/-- Model of `ScheduleError`, distinguishing `GraphNotFound` as `apply_command`
does (both match arms report, so the distinction is inert). -/
inductive ScheduleError where
  | graphNotFound (n : Nat)
  | other (k : Nat)
  deriving DecidableEq, Repr

/-- Model of `KnystError`: the sum of errors handed to the error handler. -/
inductive KnystError where
  | connectionError (e : ConnectionError)
  | freeError (e : FreeError)
  | scheduleError (e : ScheduleError)
  | pushError (k : Nat)
  | resourcesError (k : Nat)
  | musicalTimeMapError (k : Nat)
  deriving DecidableEq, Repr

/-- Model of `BeatCallback {callback, next_timestamp, free_flag}`. The `FnMut`
closure is abstracted by its return behaviour `userFn`; within the
single `run_callbacks` pass the claims are about, each callback is
invoked at most once, so a pure function is adequate. -/
structure BeatCallback where
  userFn : Superbeats → Option Superbeats
  next_timestamp : Superbeats
  free_flag : Bool

/-- Model of `StartBeat`: absolute beat or next multiple. -/
inductive StartBeat where
  | absolute (b : Superbeats)
  | multiple (m : Superbeats)

/-- The `Command` enum of `controller.rs`. Opaque payloads
(`GenOrGraphEnum`, the `ResourcesCommand`, the musical-time-map closure)
are carried as tokens; the `RequestInspection` reply channel is modelled
by whether its receiver is still alive when the send happens. -/
inductive Command where
  | push (genOrGraph : Nat) (nodeAddress : Nat) (graphId : Nat) (startTime : TimeM)
  | connect (c : Connection)
  | disconnect (c : Connection)
  | freeNode (n : Nat)
  | freeNodeMendConnections (n : Nat)
  | scheduleChange (c : ParameterChange)
  | scheduleChanges (c : SimultaneousChanges)
  | freeDisconnectedNodes
  | resourcesCommand (rc : Nat)
  | changeMusicalTimeMap (f : Nat)
  | scheduleBeatCallback (cb : BeatCallback) (start : StartBeat)
  | requestInspection (receiverAlive : Bool)

/-- Log entry for each call the Controller makes on its collaborators
(the top level `Graph` and the resources ring). -/
inductive GraphOp where
  | pushOp (genOrGraph nodeAddress graphId : Nat) (t : TimeM)
  | connectOp (c : Connection)
  | disconnectOp (c : Connection)
  | freeOp (n : Nat)
  | freeMendOp (n : Nat)
  | scheduleChangeOp (c : ParameterChange)
  | scheduleChangesOp (cs : List NodeChanges) (t : TimeM)
  | freeDisconnectedOp
  | changeMusicalTimeMapOp (f : Nat)
  | generateInspectionOp
  | updateOp
  deriving DecidableEq, Repr

/-- The `Graph` as the response oracle the Controller consumes
(spec §6 lists exactly these required methods). `none` is `Ok`. -/
structure GraphOracle where
  pushResult : Nat → Nat → Nat → TimeM → Option Nat
  connectResult : Connection → Option ConnectionError
  disconnectResult : Connection → Option ConnectionError
  freeResult : Nat → Option FreeError
  freeMendResult : Nat → Option FreeError
  scheduleChangeResult : ParameterChange → Option ScheduleError
  scheduleChangesResult : List NodeChanges → TimeM → Option ScheduleError
  freeDisconnectedResult : Option Nat
  changeMusicalTimeMapResult : Nat → Option Nat
  currentTimeMusical : Option Superbeats

/-- The Controller-owned state `apply_command` and friends act on.
`graphOps` is the log of collaborator calls, `commandQueue` the deferred
queue `Vec<(Instant, Command)>` (`Instant` as a `Nat`), `reportedErrors`
the error-handler invocations in order, `resourcesRing` the bounded
SPSC ring towards the audio thread, and `resourcesResponses` the
pending replies from it (`none` is a success reply). -/
structure ControllerState where
  graphOps : List GraphOp
  commandQueue : List (Nat × Command)
  reportedErrors : List KnystError
  beatCallbacks : List BeatCallback
  resourcesRing : List Nat
  ringCapacity : Nat
  resourcesResponses : List (Option KnystError)
  now : Nat

/-- Abnormal termination of a Controller operation. -/
inductive Abnormal where
  | panicked
  | diverged
  deriving DecidableEq, Repr

/-- Append a collaborator call to the log. -/
def logOp (s : ControllerState) (op : GraphOp) : ControllerState :=
  { s with graphOps := s.graphOps ++ [op] }

/-- Invoke the error handler: `(*self.error_handler)(e)`. -/
def report (s : ControllerState) (e : KnystError) : ControllerState :=
  { s with reportedErrors := s.reportedErrors ++ [e] }

/-- Re-enqueue into the deferred queue:
`self.command_queue.push((Instant::now(), command))`. -/
def deferCommand (s : ControllerState) (c : Command) : ControllerState :=
  { s with commandQueue := s.commandQueue ++ [(s.now, c)] }

/-- The loop in the `ScheduleBeatCallback` arm:
`let mut i = 1; while beats * from_beats(i) < current_beats { i += 1 }`,
returning `beats * from_beats(i)`. In fixed-point units the product
`m * from_beats(i)` is `m * i`. The guard keeps the recursion total; it
is equivalent to the source guard whenever the source loop terminates
(that is, whenever `0 < m` or `cur = 0`). -/
def nextMultipleAux (m cur i : Nat) : Nat :=
  if h : m * i < cur ∧ 0 < m then nextMultipleAux m cur (i + 1)
  else m * i
termination_by cur - m * i
decreasing_by
  exact Nat.sub_lt_sub_left h.1 (by
    have := h.2
    calc m * i < m * i + m := by omega
    _ = m * (i + 1) := by ring)

/-- Model of `Controller::apply_command`, arm by arm. The result is the updated
state, `Except.error .panicked` when the source panics, and
`Except.error .diverged` when the source loops forever. -/
def applyCommand (o : GraphOracle) (s : ControllerState) :
    Command → Except Abnormal ControllerState
  | .push g n gid t =>
    let s := logOp s (.pushOp g n gid t)
    .ok (match o.pushResult g n gid t with
      | none => s
      | some k => report s (.pushError k))
  | .connect c =>
    let s := logOp s (.connectOp c)
    .ok (match o.connectResult c with
      | none => s
      | some .sourceNodeNotPushed => deferCommand s (.connect c)
      | some .sinkNodeNotPushed => deferCommand s (.connect c)
      | some e => report s (.connectionError e))
  | .disconnect c =>
    let s := logOp s (.disconnectOp c)
    .ok (match o.disconnectResult c with
      | none => s
      | some .sourceNodeNotPushed => deferCommand s (.disconnect c)
      | some .sinkNodeNotPushed => deferCommand s (.disconnect c)
      | some e => report s (.connectionError e))
  | .freeNode n =>
    let s := logOp s (.freeOp n)
    .ok (match o.freeResult n with
      | none => s
      | some .nodeNotFound => deferCommand s (.freeNode n)
      | some e => report s (.freeError e))
  | .freeNodeMendConnections n =>
    let s := logOp s (.freeMendOp n)
    .ok (match o.freeMendResult n with
      | none => s
      | some .nodeNotFound => deferCommand s (.freeNodeMendConnections n)
      | some e => report s (.freeError e))
  | .scheduleChange c =>
    let s := logOp s (.scheduleChangeOp c)
    .ok (match o.scheduleChangeResult c with
      | none => s
      | some e => report s (.scheduleError e))
  | .scheduleChanges cs =>
    let s := logOp s (.scheduleChangesOp cs.changes cs.time)
    .ok (match o.scheduleChangesResult cs.changes cs.time with
      | none => s
      | some e => report s (.scheduleError e))
  | .freeDisconnectedNodes =>
    let s := logOp s .freeDisconnectedOp
    .ok (match o.freeDisconnectedResult with
      | none => s
      | some e => report s (.freeError (.other e)))
  | .resourcesCommand rc =>
    -- `self.resources_sender.push(..)`: fails exactly when the ring is full.
    .ok (if s.resourcesRing.length < s.ringCapacity then
      { s with resourcesRing := s.resourcesRing ++ [rc] }
    else
      deferCommand s (.resourcesCommand rc))
  | .changeMusicalTimeMap f =>
    let s := logOp s (.changeMusicalTimeMapOp f)
    .ok (match o.changeMusicalTimeMapResult f with
      | none => s
      | some e => report s (.musicalTimeMapError e))
  | .scheduleBeatCallback cb start =>
    -- `self.top_level_graph.get_current_time_musical().unwrap()`
    match o.currentTimeMusical with
    | none => .error .panicked
    | some cur =>
      match start with
      | .absolute b =>
        .ok { s with beatCallbacks :=
          s.beatCallbacks ++ [{ cb with next_timestamp := b }] }
      | .multiple m =>
        if 0 < m ∨ cur = 0 then
          .ok { s with beatCallbacks :=
            s.beatCallbacks ++
              [{ cb with next_timestamp := nextMultipleAux m cur 1 }] }
        else
          -- `m = 0 < cur`: the source loop `while 0 < cur { i += 1 }` never exits.
          .error .diverged
  | .requestInspection receiverAlive =>
    -- `sender.send(self.top_level_graph.generate_inspection()).unwrap()`
    let s := logOp s .generateInspectionOp
    if receiverAlive then .ok s else .error .panicked

/-- The result of `BeatCallback::run_callback`. -/
inductive CallbackResult where
  | continueCb (c : BeatCallback)
  | deleteCb

/-- Model of `BeatCallback::run_callback`, additionally recording whether the
user closure was actually invoked (the `Bool`). -/
def runCallback (c : BeatCallback) : CallbackResult × Bool :=
  if c.free_flag then (.deleteCb, false)
  else
    match c.userFn c.next_timestamp with
    | some timeToNext =>
      (.continueCb { c with next_timestamp := c.next_timestamp + timeToNext }, true)
    | none => (.deleteCb, true)

/-- The firing test in `Controller::run_callbacks`:
`c.next_timestamp < current || c.next_timestamp.checked_sub(current).unwrap() < 0.25 beats`.
The `unwrap` cannot panic: `||` short-circuits, so the subtraction is
only evaluated when `next_timestamp >= current`, where `checked_sub`
agrees with truncated subtraction. -/
def fireCond (current : Superbeats) (c : BeatCallback) : Prop :=
  c.next_timestamp < current ∨ c.next_timestamp - current < quarterBeat

instance (current : Superbeats) (c : BeatCallback) :
    Decidable (fireCond current c) := by
  unfold fireCond; infer_instance

/-- The reverse-index loop of `Controller::run_callbacks`:
`i` starts at the length and is decremented each iteration; index
`i - 1` is examined, updated in place on `Continue` and removed on
`Delete`. Returns the surviving callbacks plus the list of timestamps
at which the user closures were invoked, in invocation order. -/
def runCallbacksLoop (current : Superbeats) :
    List BeatCallback → Nat → List BeatCallback × List Superbeats
  | cbs, 0 => (cbs, [])
  | cbs, i + 1 =>
    match cbs[i]? with
    | none => runCallbacksLoop current cbs i
    | some c =>
      if fireCond current c then
        match runCallback c with
        | (.deleteCb, invoked) =>
          let r := runCallbacksLoop current (cbs.eraseIdx i) i
          (r.1, (if invoked then [c.next_timestamp] else []) ++ r.2)
        | (.continueCb c2, _) =>
          let r := runCallbacksLoop current (cbs.set i c2) i
          (r.1, c.next_timestamp :: r.2)
      else runCallbacksLoop current cbs i

/-- Model of `Controller::run_callbacks` restricted to the callback list, given
the current musical time. -/
def runCallbacksList (current : Superbeats) (cbs : List BeatCallback) :
    List BeatCallback × List Superbeats :=
  runCallbacksLoop current cbs cbs.length

/-- Model of `Controller::run_callbacks` on the Controller state: a no-op when
`get_current_time_musical()` returns `None`. -/
def runCallbacksS (o : GraphOracle) (s : ControllerState) : ControllerState :=
  match o.currentTimeMusical with
  | none => s
  | some current =>
    { s with beatCallbacks := (runCallbacksList current s.beatCallbacks).1 }

/-- The `while let Ok(command) = self.command_receiver.try_recv()` loop
of `Controller::receive_and_apply_commands`; the channel is the list of
commands pending on the receiver, `i` the number applied so far.
Returns the state, the commands left unread, and the drained flag. -/
def receiveLoop (o : GraphOracle) (s : ControllerState) :
    List Command → Nat → Nat →
    Except Abnormal (ControllerState × List Command × Bool)
  | [], _, _ => .ok (s, [], true)
  | c :: rest, maxCommands, i =>
    match applyCommand o s c with
    | .error a => .error a
    | .ok s2 =>
      if i + 1 ≥ maxCommands then .ok (s2, rest, false)
      else receiveLoop o s2 rest maxCommands (i + 1)

/-- Model of `Controller::receive_and_apply_commands(max_commands)`. -/
def receiveAndApplyCommands (o : GraphOracle) (s : ControllerState)
    (channel : List Command) (maxCommands : Nat) :
    Except Abnormal (ControllerState × List Command × Bool) :=
  receiveLoop o s channel maxCommands 0

/-- Model of `Controller::run_maintenance`: `Graph::update()` then drain the
resources response ring, reporting every error reply. -/
def runMaintenance (s : ControllerState) : ControllerState :=
  let s := logOp s .updateOp
  { s with resourcesResponses := [],
           reportedErrors := s.reportedErrors ++ s.resourcesResponses.filterMap id }

/-- Model of `Controller::run(max_commands_before_update)`: callbacks first, then
receive-and-apply, then maintenance; the drained flag is forwarded. -/
def run (o : GraphOracle) (s : ControllerState) (channel : List Command)
    (maxCommands : Nat) :
    Except Abnormal (ControllerState × List Command × Bool) :=
  let s1 := runCallbacksS o s
  match receiveAndApplyCommands o s1 channel maxCommands with
  | .error a => .error a
  | .ok (s2, rest, flag) => .ok (runMaintenance s2, rest, flag)

/-! ## The Commands facade (`MultiThreadedKnystCommands`) -/

/-- A thread-local in-progress `Graph`, reduced to its id and the log of
operations applied to it (errors from local application are only
printed, so the log records every attempt). -/
structure LocalGraph where
  gid : Nat
  ops : List GraphOp
  deriving DecidableEq, Repr

/-- The facade fields relevant to bundling
(`bundle_changes`, `changes_bundle`, `changes_bundle_time`). -/
structure FacadeState where
  bundle_changes : Bool
  changes_bundle : List NodeChanges
  changes_bundle_time : TimeM
  deriving DecidableEq, Repr

/-- The thread-local `LOCAL_GRAPH` stack; the top of the `Vec` (its last
element, the one `last_mut` yields) is the head of this list. -/
abbrev LocalStack := List LocalGraph

/-- Model of `MultiThreadedKnystCommands::schedule_change`: bundle it, apply it
to the top local graph, or send `Command::ScheduleChange`. Returns the
facade state, the stack, and the commands sent on the channel. -/
def scheduleChangeF (f : FacadeState) (stack : LocalStack)
    (change : ParameterChange) : FacadeState × LocalStack × List Command :=
  if f.bundle_changes then
    ({ f with changes_bundle := f.changes_bundle ++
        [{ node := change.input.node,
           parameters := [(change.input.channel, change.value)],
           offset := none }] },
     stack, [])
  else
    match stack with
    | g :: rest =>
      (f, { g with ops := g.ops ++ [.scheduleChangeOp change] } :: rest, [])
    | [] => (f, [], [.scheduleChange change])

/-- Model of `MultiThreadedKnystCommands::schedule_changes`. -/
def scheduleChangesF (f : FacadeState) (stack : LocalStack)
    (changes : SimultaneousChanges) : FacadeState × LocalStack × List Command :=
  if f.bundle_changes then
    ({ f with changes_bundle := f.changes_bundle ++ changes.changes }, stack, [])
  else
    match stack with
    | g :: rest =>
      (f, { g with ops := g.ops ++
        [.scheduleChangesOp changes.changes changes.time] } :: rest, [])
    | [] => (f, [], [.scheduleChanges changes])

/-- Model of `MultiThreadedKnystCommands::start_scheduling_bundle`; the `Bool`
records whether the warning about a non-empty previous bundle was
printed. -/
def startSchedulingBundle (f : FacadeState) (time : TimeM) :
    FacadeState × Bool :=
  ({ f with bundle_changes := true, changes_bundle_time := time },
   !f.changes_bundle.isEmpty)

/-- Model of `MultiThreadedKnystCommands::upload_scheduling_bundle`. -/
def uploadSchedulingBundle (f : FacadeState) (stack : LocalStack) :
    FacadeState × LocalStack × List Command :=
  let f1 : FacadeState := { f with bundle_changes := false }
  let changes : SimultaneousChanges :=
    { time := f1.changes_bundle_time, changes := f1.changes_bundle }
  let r := scheduleChangesF f1 stack changes
  ({ r.1 with changes_bundle := [], changes_bundle_time := .immediately },
   r.2.1, r.2.2)

/-! ## `trig.rs`: `is_trigger` and `OnceTrig` -/

/-- Model of `GenState`, restricted to the variants `trig.rs` produces. -/
inductive GenState where
  | continueGen
  | freeSelf
  deriving DecidableEq, Repr

/-- Model of `is_trigger(sample) = sample > 0.` (samples as exact rationals). -/
def is_trigger (sample : ℚ) : Prop := sample > 0

instance (sample : ℚ) : Decidable (is_trigger sample) := by
  unfold is_trigger; infer_instance

/-- Model of `OnceTrig::process` on one block. The state is the `bool` inside
`OnceTrig`; `out` is the output channel of the block. On the not yet
triggered path the source writes `out[0] = 1.0` first (panicking on an
empty block) and then zeroes every later sample; on the triggered path
it zeroes the whole block. Always returns `GenState::FreeSelf`. -/
def onceTrigProcess (triggered : Bool) (out : List ℚ) :
    Option (List ℚ × Bool × GenState) :=
  if triggered then
    some (out.map fun _ => 0, triggered, .freeSelf)
  else
    match out with
    | [] => none
    | _ :: rest => some (1 :: rest.map fun _ => 0, true, .freeSelf)

/-- Replace the deferred queue of a Controller state (used to express
that every Controller operation is oblivious to the queue content and
only ever appends to it). -/
def withQueue (s : ControllerState) (q : List (Nat × Command)) :
    ControllerState :=
  { s with commandQueue := q }

/-! ## Fixtures for concrete evaluations -/

/-- An oracle on which every graph call succeeds and the current musical
time is beat zero. -/
def oracleBase : GraphOracle where
  pushResult := fun _ _ _ _ => none
  connectResult := fun _ => none
  disconnectResult := fun _ => none
  freeResult := fun _ => none
  freeMendResult := fun _ => none
  scheduleChangeResult := fun _ => none
  scheduleChangesResult := fun _ _ => none
  freeDisconnectedResult := none
  changeMusicalTimeMapResult := fun _ => none
  currentTimeMusical := some 0

/-- Model of `oracleBase` at musical time 7 units. -/
def oracleAt7 : GraphOracle := { oracleBase with currentTimeMusical := some 7 }

/-- An oracle whose graph reports no musical time. -/
def oracleNoTime : GraphOracle := { oracleBase with currentTimeMusical := none }

/-- An oracle on which `connect` fails with `SourceNodeNotPushed`,
`disconnect` with `GraphNotFound(3)`, `free_node` with `NodeNotFound`
and `free_node_mend_connections` with a non-`NodeNotFound` error. -/
def oracleMixedErrors : GraphOracle :=
  { oracleBase with
    connectResult := fun _ => some .sourceNodeNotPushed
    disconnectResult := fun _ => some (.graphNotFound 3)
    freeResult := fun _ => some .nodeNotFound
    freeMendResult := fun _ => some (.other 4) }

/-- A fresh Controller state with ring capacity 1 and clock reading 7. -/
def stateBase : ControllerState where
  graphOps := []
  commandQueue := []
  reportedErrors := []
  beatCallbacks := []
  resourcesRing := []
  ringCapacity := 1
  resourcesResponses := []
  now := 7

/-- A callback whose closure finishes immediately. -/
def cbStub : BeatCallback where
  userFn := fun _ => none
  next_timestamp := 0
  free_flag := false

/-- The state `apply_command` reaches from `stateBase` on a `Connect`
that fails with `SourceNodeNotPushed` (as on `oracleMixedErrors`). -/
def deferredConnectState : ControllerState :=
  deferCommand (logOp stateBase (.connectOp 1)) (.connect 1)

/-- A facade with an open, non-empty scheduling bundle. -/
def facadeOpen : FacadeState where
  bundle_changes := true
  changes_bundle := [{ node := 8, parameters := [(0, 1)], offset := none }]
  changes_bundle_time := .superseconds 5

/-- A facade with no open bundle and an empty buffer. -/
def facadeClosed : FacadeState where
  bundle_changes := false
  changes_bundle := []
  changes_bundle_time := .immediately

/-- A sample parameter change on node 4, channel 2. -/
def sampleChange : ParameterChange where
  input := { node := 4, channel := 2 }
  value := 1 / 2
  time := .immediately

/-- A local in-progress graph with id 9. -/
def sampleLocal : LocalGraph where
  gid := 9
  ops := []

/-! ## Claim-side definitions (written from the words of the claims) -/

/-- Claim C4 side: the per-callback rule exactly as the claim words it:
invoked when `next_timestamp < current_time` or
`next_timestamp - current_time < 0.25` beats; an invoked callback with
`free_flag` set is removed without calling `user_fn`; `Some delta`
keeps it at `next_timestamp + delta`; `None` removes it. -/
def claimStep (current : Superbeats) (c : BeatCallback) : Option BeatCallback :=
  if c.next_timestamp < current ∨ c.next_timestamp - current < quarterBeat then
    if c.free_flag then none
    else
      match c.userFn c.next_timestamp with
      | some delta => some { c with next_timestamp := c.next_timestamp + delta }
      | none => none
  else some c

/-- Claim C4 side: whether `user_fn` is invoked for a stored callback. -/
def userFnInvoked (current : Superbeats) (c : BeatCallback) : Bool :=
  decide (fireCond current c) && !c.free_flag

/-! ## Helper lemmas -/

/-- Closed form of the `StartBeat::Multiple` search loop: starting from
a positive `i`, it lands on `m` times the larger of `i` and
`⌈cur / m⌉`. -/
theorem nextMultipleAux_eq (m cur i : Nat) :
    0 < m → 0 < i → nextMultipleAux m cur i = m * max i ((cur + m - 1) / m) := by
  induction i using nextMultipleAux.induct m cur with
  | case1 i h ih =>
    intro hm hi
    rw [nextMultipleAux, dif_pos h]
    rw [ih hm (by omega)]
    congr 1
    have hmul : (i + 1) * m ≤ cur + m - 1 := by
      have h1 : m * i + 1 ≤ cur := h.1
      have h2 : (i + 1) * m = m * i + m := by ring
      omega
    have hceil : i + 1 ≤ (cur + m - 1) / m := (Nat.le_div_iff_mul_le hm).2 hmul
    rw [Nat.max_eq_right hceil, Nat.max_eq_right (by omega)]
  | case2 i h =>
    intro hm hi
    rw [nextMultipleAux, dif_neg h]
    have hcur : cur ≤ m * i := by
      rcases Nat.lt_or_ge (m * i) cur with hlt | hge
      · exact absurd ⟨hlt, hm⟩ h
      · exact hge
    have hceil : (cur + m - 1) / m ≤ i :=
      (Nat.div_le_iff_le_mul_add_pred hm).2 (by omega)
    rw [Nat.max_eq_left hceil]

/-! ## Claim theorems -/

/-- Claim C1 (code bug in the source): for a `RequestInspection` command
whose reply receiver was dropped before the Controller processed it, the
`sender.send(..).unwrap()` in `apply_command` panics instead of
tolerating the failed send, terminating the Controller loop, for any
oracle and any Controller state. -/
theorem C1_requestInspection_dropped_receiver_panics
    (o : GraphOracle) (s : ControllerState) :
    applyCommand o s (.requestInspection false) = .error .panicked := rfl

/-- Claim C2 counterexample: at current musical time zero and
`StartBeat::Multiple` of one beat, the code sets `next_timestamp` to one
beat (`2^32` units), while the claim prescribes
`m * ceil(current / m) = 0`, the smallest integer multiple
`k * m >= current` with `k = 0`; the two differ. -/
theorem C2_counterexample_at_beat_zero :
    (applyCommand oracleBase stateBase
        (.scheduleBeatCallback cbStub (.multiple (Superbeats.from_beats 1)))).map
        (fun s => s.beatCallbacks.map (fun c => c.next_timestamp)) =
      .ok [Superbeats.from_beats 1] ∧
    Superbeats.from_beats 1 ≠
      Superbeats.from_beats 1 *
        ((0 + Superbeats.from_beats 1 - 1) / Superbeats.from_beats 1) := by
  constructor
  · have h : nextMultipleAux (Superbeats.from_beats 1) 0 1 = Superbeats.from_beats 1 := by
      rw [nextMultipleAux_eq _ _ _ (by norm_num [Superbeats.from_beats]) Nat.one_pos]
      norm_num [Superbeats.from_beats]
    simp [applyCommand, oracleBase, stateBase, h, Except.map]
  · norm_num [Superbeats.from_beats]

/-- Claim C2 amended: when the Controller applies `ScheduleBeatCallback`
with `StartBeat::Multiple(m)`, `m > 0`, at current musical time `cur`,
the callback is appended to `beat_callbacks` with `next_timestamp` set
to `m * max 1 (ceil(cur / m))`: the smallest multiple `k * m` with
`k >= 1` and `k * m >= cur` (so `m`, not `0`, when `cur = 0`). -/
theorem C2_amended_multiple_start (o : GraphOracle) (s : ControllerState)
    (cb : BeatCallback) (m cur : Superbeats)
    (hcur : o.currentTimeMusical = some cur) (hm : 0 < m) :
    applyCommand o s (.scheduleBeatCallback cb (.multiple m)) =
      .ok { s with beatCallbacks := s.beatCallbacks ++
        [{ cb with next_timestamp := m * max 1 ((cur + m - 1) / m) }] } := by
  simp only [applyCommand, hcur]
  rw [if_pos (Or.inl hm), nextMultipleAux_eq m cur 1 hm Nat.one_pos]

/-- Witness for the amended claim C2 at `m = 3`, current time 7:
the next multiple is 9. -/
theorem C2_amended_multiple_start_witness :
    applyCommand oracleAt7 stateBase (.scheduleBeatCallback cbStub (.multiple 3)) =
      .ok { stateBase with beatCallbacks :=
        [{ cbStub with next_timestamp := 3 * max 1 ((7 + 3 - 1) / 3) }] } :=
  C2_amended_multiple_start oracleAt7 stateBase cbStub 3 7 rfl (by decide)

/-- Claim C10: the `ScheduleBeatCallback` arm unwraps
`get_current_time_musical()`. When it is `Some`, the arm never panics;
when it is `None`, `apply_command` panics rather than reporting to the
error handler. -/
theorem C10_beat_callback_requires_musical_time (o : GraphOracle)
    (s : ControllerState) (cb : BeatCallback) (start : StartBeat) :
    (o.currentTimeMusical ≠ none →
      applyCommand o s (.scheduleBeatCallback cb start) ≠ .error .panicked) ∧
    (o.currentTimeMusical = none →
      applyCommand o s (.scheduleBeatCallback cb start) = .error .panicked) := by
  constructor
  · intro h
    rcases hc : o.currentTimeMusical with _ | cur
    · exact absurd hc h
    · simp only [applyCommand, hc]
      rcases start with b | m
      · simp
      · dsimp only
        split
        · simp
        · simp
  · intro h
    simp only [applyCommand, h]

/-- Witness for claim C10: with a graph reporting beat 0 the arm
completes; with a graph reporting no musical time it panics. -/
theorem C10_witness :
    (applyCommand oracleBase stateBase
        (.scheduleBeatCallback cbStub (.absolute 5)) ≠ .error .panicked) ∧
    (applyCommand oracleNoTime stateBase
        (.scheduleBeatCallback cbStub (.absolute 5)) = .error .panicked) :=
  ⟨(C10_beat_callback_requires_musical_time oracleBase stateBase cbStub
      (.absolute 5)).1 (by simp [oracleBase]),
   (C10_beat_callback_requires_musical_time oracleNoTime stateBase cbStub
      (.absolute 5)).2 rfl⟩

/-- Claim C3: `Connect`/`Disconnect` failing with `SourceNodeNotPushed`
or `SinkNodeNotPushed`, and `FreeNode`/`FreeNodeMendConnections` failing
with `NodeNotFound`, append `(now, command)` to the deferred queue
without invoking the error handler; every other error from these four
command kinds is reported exactly once with nothing enqueued. -/
theorem C3_transient_errors_deferred (o : GraphOracle) (s : ControllerState)
    (c : Connection) (n : Nat) :
    ((o.connectResult c = some .sourceNodeNotPushed ∨
        o.connectResult c = some .sinkNodeNotPushed) →
      applyCommand o s (.connect c) =
        .ok (deferCommand (logOp s (.connectOp c)) (.connect c))) ∧
    (∀ e, o.connectResult c = some e →
      e ≠ .sourceNodeNotPushed → e ≠ .sinkNodeNotPushed →
      applyCommand o s (.connect c) =
        .ok (report (logOp s (.connectOp c)) (.connectionError e))) ∧
    ((o.disconnectResult c = some .sourceNodeNotPushed ∨
        o.disconnectResult c = some .sinkNodeNotPushed) →
      applyCommand o s (.disconnect c) =
        .ok (deferCommand (logOp s (.disconnectOp c)) (.disconnect c))) ∧
    (∀ e, o.disconnectResult c = some e →
      e ≠ .sourceNodeNotPushed → e ≠ .sinkNodeNotPushed →
      applyCommand o s (.disconnect c) =
        .ok (report (logOp s (.disconnectOp c)) (.connectionError e))) ∧
    (o.freeResult n = some .nodeNotFound →
      applyCommand o s (.freeNode n) =
        .ok (deferCommand (logOp s (.freeOp n)) (.freeNode n))) ∧
    (∀ e, o.freeResult n = some e → e ≠ .nodeNotFound →
      applyCommand o s (.freeNode n) =
        .ok (report (logOp s (.freeOp n)) (.freeError e))) ∧
    (o.freeMendResult n = some .nodeNotFound →
      applyCommand o s (.freeNodeMendConnections n) =
        .ok (deferCommand (logOp s (.freeMendOp n))
          (.freeNodeMendConnections n))) ∧
    (∀ e, o.freeMendResult n = some e → e ≠ .nodeNotFound →
      applyCommand o s (.freeNodeMendConnections n) =
        .ok (report (logOp s (.freeMendOp n)) (.freeError e))) := by
  refine ⟨?_, ?_, ?_, ?_, ?_, ?_, ?_, ?_⟩
  · rintro (h | h) <;> simp [applyCommand, h]
  · rintro e h h1 h2
    rcases e with _ | _ | g | k
    · exact absurd rfl h1
    · exact absurd rfl h2
    · simp [applyCommand, h]
    · simp [applyCommand, h]
  · rintro (h | h) <;> simp [applyCommand, h]
  · rintro e h h1 h2
    rcases e with _ | _ | g | k
    · exact absurd rfl h1
    · exact absurd rfl h2
    · simp [applyCommand, h]
    · simp [applyCommand, h]
  · intro h; simp [applyCommand, h]
  · rintro e h h1
    rcases e with _ | k
    · exact absurd rfl h1
    · simp [applyCommand, h]
  · intro h; simp [applyCommand, h]
  · rintro e h h1
    rcases e with _ | k
    · exact absurd rfl h1
    · simp [applyCommand, h]

/-- Witness for claim C3 on `oracleMixedErrors`: a `SourceNodeNotPushed`
connect and a `NodeNotFound` free are deferred; a `GraphNotFound`
disconnect and an other-error mend-free are reported. -/
theorem C3_witness :
    (applyCommand oracleMixedErrors stateBase (.connect 1) =
      .ok (deferCommand (logOp stateBase (.connectOp 1)) (.connect 1))) ∧
    (applyCommand oracleMixedErrors stateBase (.disconnect 1) =
      .ok (report (logOp stateBase (.disconnectOp 1))
        (.connectionError (.graphNotFound 3)))) ∧
    (applyCommand oracleMixedErrors stateBase (.freeNode 2) =
      .ok (deferCommand (logOp stateBase (.freeOp 2)) (.freeNode 2))) ∧
    (applyCommand oracleMixedErrors stateBase (.freeNodeMendConnections 2) =
      .ok (report (logOp stateBase (.freeMendOp 2)) (.freeError (.other 4)))) := by
  have h := C3_transient_errors_deferred oracleMixedErrors stateBase 1 2
  exact ⟨h.1 (Or.inl rfl),
    h.2.2.2.1 (.graphNotFound 3) rfl (by decide) (by decide),
    h.2.2.2.2.1 rfl,
    h.2.2.2.2.2.2.2 (.other 4) rfl (by decide)⟩

/-- Claim C5: `start_scheduling_bundle(time)` sets `bundle_changes`,
stores the time and keeps every buffered change, warning exactly when
the buffer is non-empty; a subsequent `upload_scheduling_bundle` emits
exactly one `SimultaneousChanges` carrying the stored time and the
buffered changes in order (as a channel command when no local graph is
active, into the top local graph otherwise) and empties the buffer. -/
theorem C5_bundle_start_upload (f : FacadeState) (time : TimeM) :
    (startSchedulingBundle f time =
      ({ f with bundle_changes := true, changes_bundle_time := time },
       !f.changes_bundle.isEmpty)) ∧
    (uploadSchedulingBundle f [] =
      ({ bundle_changes := false, changes_bundle := [],
         changes_bundle_time := .immediately }, [],
       [.scheduleChanges { time := f.changes_bundle_time,
                           changes := f.changes_bundle }])) ∧
    (∀ g rest, uploadSchedulingBundle f (g :: rest) =
      ({ bundle_changes := false, changes_bundle := [],
         changes_bundle_time := .immediately },
       { g with ops := g.ops ++
           [.scheduleChangesOp f.changes_bundle f.changes_bundle_time] } :: rest,
       [])) := by
  refine ⟨rfl, ?_, fun g rest => ?_⟩ <;>
    simp [uploadSchedulingBundle, scheduleChangesF]

/-- Claim C6: `schedule_change` appends a single-pair `NodeChanges`
without offset to the bundle when one is open (sending nothing), else
applies the change to the top local graph when the stack is non-empty,
else sends a `ScheduleChange` command. -/
theorem C6_schedule_change_routing (f : FacadeState) (stack : LocalStack)
    (change : ParameterChange) :
    (f.bundle_changes = true →
      scheduleChangeF f stack change =
        ({ f with changes_bundle := f.changes_bundle ++
            [{ node := change.input.node,
               parameters := [(change.input.channel, change.value)],
               offset := none }] }, stack, [])) ∧
    (f.bundle_changes = false → ∀ g rest, stack = g :: rest →
      scheduleChangeF f stack change =
        (f, { g with ops := g.ops ++ [.scheduleChangeOp change] } :: rest,
         [])) ∧
    (f.bundle_changes = false → stack = [] →
      scheduleChangeF f stack change = (f, [], [.scheduleChange change])) := by
  refine ⟨fun hb => ?_, fun hb g rest hs => ?_, fun hb hs => ?_⟩
  · simp [scheduleChangeF, hb]
  · simp [scheduleChangeF, hb, hs]
  · simp [scheduleChangeF, hb, hs]

/-- Witness for claim C6: all three routes at concrete inputs. -/
theorem C6_witness :
    (scheduleChangeF facadeOpen [] sampleChange =
      ({ facadeOpen with changes_bundle := facadeOpen.changes_bundle ++
          [{ node := 4, parameters := [(2, 1 / 2)], offset := none }] },
       [], [])) ∧
    (scheduleChangeF facadeClosed [sampleLocal] sampleChange =
      (facadeClosed,
       [{ sampleLocal with ops := [.scheduleChangeOp sampleChange] }], [])) ∧
    (scheduleChangeF facadeClosed [] sampleChange =
      (facadeClosed, [], [.scheduleChange sampleChange])) := by
  have h1 := C6_schedule_change_routing facadeOpen [] sampleChange
  have h2 := C6_schedule_change_routing facadeClosed [sampleLocal] sampleChange
  have h3 := C6_schedule_change_routing facadeClosed [] sampleChange
  exact ⟨h1.1 rfl, h2.2.1 rfl sampleLocal [] rfl, h3.2.2 rfl rfl⟩

/-- What the receive loop leaves unread and how it sets the drained
flag: starting with `i` commands already applied and `i < max`, it
consumes `max - i` commands (or the whole channel, whichever is
shorter), and the flag is `true` exactly when the channel held strictly
fewer than `max - i` commands. -/
theorem receiveLoop_spec (o : GraphOracle) :
    ∀ (chan : List Command) (s : ControllerState) (maxC i : Nat)
      (s2 : ControllerState) (rest : List Command) (flag : Bool),
      i < maxC →
      receiveLoop o s chan maxC i = .ok (s2, rest, flag) →
      rest = chan.drop (maxC - i) ∧ (flag = true ↔ chan.length < maxC - i) := by
  intro chan
  induction chan with
  | nil =>
    intro s maxC i s2 rest flag hi h
    simp only [receiveLoop, Except.ok.injEq, Prod.mk.injEq] at h
    obtain ⟨-, h2, h3⟩ := h
    subst h2; subst h3
    refine ⟨List.drop_nil.symm, ?_⟩
    simp only [List.length_nil, true_iff]
    omega
  | cons c cs ih =>
    intro s maxC i s2 rest flag hi h
    simp only [receiveLoop] at h
    cases happly : applyCommand o s c with
    | error a =>
      rw [happly] at h
      dsimp only at h
      exact absurd h (by simp)
    | ok s3 =>
      rw [happly] at h
      dsimp only at h
      by_cases hge : i + 1 ≥ maxC
      · rw [if_pos hge] at h
        simp only [Except.ok.injEq, Prod.mk.injEq] at h
        obtain ⟨-, h2, h3⟩ := h
        subst h2; subst h3
        have hone : maxC - i = 1 := by omega
        simp [hone]
      · rw [if_neg hge] at h
        obtain ⟨h1, h2⟩ := ih s3 maxC (i + 1) s2 rest flag (by omega) h
        have hsub : maxC - i = (maxC - (i + 1)) + 1 := by omega
        constructor
        · rw [hsub, List.drop_succ_cons, h1]
        · rw [h2, hsub]
          simp only [List.length_cons]
          omega

/-- Claim C7 counterexample: with exactly `max = 1` command pending,
`receive_and_apply_commands` drains the channel (nothing remains
unread when it returns) yet it returns `false`, not `true`. -/
theorem C7_counterexample_exact_max :
    (receiveAndApplyCommands oracleBase stateBase
        [.freeDisconnectedNodes] 1).map (fun r => (r.2.1, r.2.2)) =
      .ok ([], false) := rfl

/-- Claim C7 amended: for `max >= 1`, `receive_and_apply_commands(max)`
leaves exactly `chan.drop max` unread (so applies at most `max`
commands) and returns `true` iff strictly fewer than `max` commands
were pending; with exactly `max` pending it empties the channel but
returns `false`. `run(max)` forwards the flag of its
`receive_and_apply_commands` call unchanged. -/
theorem C7_amended_drained_flag (o : GraphOracle) (s : ControllerState)
    (chan : List Command) (maxC : Nat) (s2 : ControllerState)
    (rest : List Command) (flag : Bool) (hmax : 1 ≤ maxC)
    (h : receiveAndApplyCommands o s chan maxC = .ok (s2, rest, flag)) :
    rest = chan.drop maxC ∧ (flag = true ↔ chan.length < maxC) ∧
    chan.length - rest.length ≤ maxC ∧
    run o s chan maxC =
      (receiveAndApplyCommands o (runCallbacksS o s) chan maxC).map
        (fun r => (runMaintenance r.1, r.2.1, r.2.2)) := by
  obtain ⟨h1, h2⟩ :=
    receiveLoop_spec o chan s maxC 0 s2 rest flag (by omega) h
  rw [Nat.sub_zero] at h1 h2
  refine ⟨h1, h2, ?_, ?_⟩
  · rw [h1, List.length_drop]
    omega
  · unfold run
    cases hr : receiveAndApplyCommands o (runCallbacksS o s) chan maxC with
    | error a => simp [hr, Except.map]
    | ok r => simp [hr, Except.map]

/-- Witness for the amended claim C7: one pending command, `max = 2`:
the channel drains and the flag is `true`. -/
theorem C7_amended_witness :
    ([] : List Command) = [Command.freeDisconnectedNodes].drop 2 ∧
    (true = true ↔ [Command.freeDisconnectedNodes].length < 2) ∧
    [Command.freeDisconnectedNodes].length - ([] : List Command).length ≤ 2 ∧
    run oracleBase stateBase [Command.freeDisconnectedNodes] 2 =
      (receiveAndApplyCommands oracleBase
          (runCallbacksS oracleBase stateBase)
          [Command.freeDisconnectedNodes] 2).map
        (fun r => (runMaintenance r.1, r.2.1, r.2.2)) :=
  C7_amended_drained_flag oracleBase stateBase [.freeDisconnectedNodes] 2
    (logOp stateBase .freeDisconnectedOp) [] true (by omega) rfl

/-- Indexing into an all-zero block yields zero (inside or outside). -/
theorem replicate_getD_zero (n i : Nat) :
    (List.replicate n (0 : ℚ)).getD i 0 = 0 := by
  rw [List.getD_eq_getElem?_getD, List.getElem?_replicate]
  split <;> rfl

/-- Claim C8: the first `OnceTrig::process` writes 1.0 at sample 0 and
0.0 afterwards, later invocations write all zeros, every invocation
returns `GenState::FreeSelf`; with `is_trigger(s) = (s > 0)`, exactly
sample 0 of the first block is a trigger, matching `out[0] == 1.0` and
`out[1] == 0.0`. -/
theorem C8_once_trig_single_trigger (out : List ℚ) (h : out ≠ []) :
    (onceTrigProcess false out =
      some (1 :: List.replicate (out.length - 1) 0, true, .freeSelf)) ∧
    (∀ out2 : List ℚ, onceTrigProcess true out2 =
      some (List.replicate out2.length 0, true, .freeSelf)) ∧
    (∀ i : Nat,
      is_trigger ((1 :: List.replicate (out.length - 1) (0 : ℚ)).getD i 0) ↔
        i = 0) ∧
    (∀ (out2 : List ℚ) (i : Nat),
      ¬ is_trigger ((List.replicate out2.length (0 : ℚ)).getD i 0)) ∧
    (2 ≤ out.length →
      (1 :: List.replicate (out.length - 1) (0 : ℚ)).getD 0 0 = 1 ∧
      (1 :: List.replicate (out.length - 1) (0 : ℚ)).getD 1 0 = 0) := by
  refine ⟨?_, ?_, ?_, ?_, ?_⟩
  · rcases out with _ | ⟨a, rest⟩
    · exact absurd rfl h
    · simp [onceTrigProcess, List.map_const']
  · intro out2
    simp [onceTrigProcess, List.map_const']
  · intro i
    rcases i with _ | i
    · simp [is_trigger]
    · simp [List.getD_cons_succ, replicate_getD_zero, is_trigger]
  · intro out2 i
    simp [replicate_getD_zero, is_trigger]
  · intro _
    exact ⟨rfl, by simp [List.getD_cons_succ, replicate_getD_zero]⟩

/-- Witness for claim C8 at the concrete two-sample block `[0, 0]`. -/
theorem C8_witness :
    onceTrigProcess false [(0 : ℚ), 0] = some ([1, 0], true, .freeSelf) ∧
    ((1 :: List.replicate ([(0 : ℚ), 0].length - 1) (0 : ℚ)).getD 0 0 = 1 ∧
      (1 :: List.replicate ([(0 : ℚ), 0].length - 1) (0 : ℚ)).getD 1 0 = 0) := by
  have h := C8_once_trig_single_trigger [(0 : ℚ), 0] (by simp)
  exact ⟨h.1, h.2.2.2.2 (by norm_num)⟩

/-- Model of `apply_command` never reads the deferred queue: its result on a
state with queue `q` is its result on the queue-free state with `q`
prepended to whatever the arm appended. -/
theorem applyCommand_queue (o : GraphOracle) (s : ControllerState)
    (q : List (Nat × Command)) (c : Command) :
    applyCommand o (withQueue s q) c =
      (applyCommand o (withQueue s []) c).map
        (fun s2 => withQueue s2 (q ++ s2.commandQueue)) := by
  cases c with
  | push g n gid t =>
    simp only [applyCommand]
    rcases o.pushResult g n gid t with _ | k <;>
      simp [withQueue, logOp, report, Except.map]
  | connect c =>
    simp only [applyCommand]
    rcases o.connectResult c with _ | e
    · simp [withQueue, logOp, Except.map]
    · rcases e <;>
        simp [withQueue, logOp, report, deferCommand, Except.map]
  | disconnect c =>
    simp only [applyCommand]
    rcases o.disconnectResult c with _ | e
    · simp [withQueue, logOp, Except.map]
    · rcases e <;>
        simp [withQueue, logOp, report, deferCommand, Except.map]
  | freeNode n =>
    simp only [applyCommand]
    rcases o.freeResult n with _ | e
    · simp [withQueue, logOp, Except.map]
    · rcases e <;>
        simp [withQueue, logOp, report, deferCommand, Except.map]
  | freeNodeMendConnections n =>
    simp only [applyCommand]
    rcases o.freeMendResult n with _ | e
    · simp [withQueue, logOp, Except.map]
    · rcases e <;>
        simp [withQueue, logOp, report, deferCommand, Except.map]
  | scheduleChange pc =>
    simp only [applyCommand]
    rcases o.scheduleChangeResult pc with _ | e <;>
      simp [withQueue, logOp, report, Except.map]
  | scheduleChanges cs =>
    simp only [applyCommand]
    rcases o.scheduleChangesResult cs.changes cs.time with _ | e <;>
      simp [withQueue, logOp, report, Except.map]
  | freeDisconnectedNodes =>
    simp only [applyCommand]
    rcases o.freeDisconnectedResult with _ | e <;>
      simp [withQueue, logOp, report, Except.map]
  | resourcesCommand rc =>
    simp only [applyCommand, withQueue]
    by_cases hful : s.resourcesRing.length < s.ringCapacity
    · rw [if_pos hful, if_pos hful]
      simp [withQueue, Except.map]
    · rw [if_neg hful, if_neg hful]
      simp [withQueue, deferCommand, Except.map]
  | changeMusicalTimeMap f =>
    simp only [applyCommand]
    rcases o.changeMusicalTimeMapResult f with _ | e <;>
      simp [withQueue, logOp, report, Except.map]
  | scheduleBeatCallback cb st =>
    simp only [applyCommand]
    rcases o.currentTimeMusical with _ | cur
    · simp [Except.map]
    · rcases st with b | m
      · simp [withQueue, Except.map]
      · dsimp only
        by_cases hm : 0 < m ∨ cur = 0
        · rw [if_pos hm, if_pos hm]
          simp [withQueue, Except.map]
        · rw [if_neg hm, if_neg hm]
          simp [Except.map]
  | requestInspection alive =>
    simp only [applyCommand]
    cases alive <;> simp [withQueue, logOp, Except.map]

/-- The receive loop never reads the deferred queue either. -/
theorem receiveLoop_queue (o : GraphOracle) :
    ∀ (chan : List Command) (s : ControllerState)
      (q : List (Nat × Command)) (maxC i : Nat),
      receiveLoop o (withQueue s q) chan maxC i =
        (receiveLoop o (withQueue s []) chan maxC i).map
          (fun r => (withQueue r.1 (q ++ r.1.commandQueue), r.2.1, r.2.2)) := by
  intro chan
  induction chan with
  | nil =>
    intro s q maxC i
    simp [receiveLoop, Except.map, withQueue]
  | cons c cs ih =>
    intro s q maxC i
    simp only [receiveLoop]
    cases hbase : applyCommand o (withQueue s []) c with
    | error a =>
      have hl : applyCommand o (withQueue s q) c = .error a := by
        rw [applyCommand_queue o s q c, hbase]; rfl
      rw [hl]
      simp [Except.map]
    | ok s3 =>
      have hl : applyCommand o (withQueue s q) c =
          .ok (withQueue s3 (q ++ s3.commandQueue)) := by
        rw [applyCommand_queue o s q c, hbase]; rfl
      rw [hl]
      dsimp only
      by_cases hge : i + 1 ≥ maxC
      · rw [if_pos hge, if_pos hge]
        simp [Except.map, withQueue]
      · rw [if_neg hge, if_neg hge]
        rw [ih s3 (q ++ s3.commandQueue) maxC (i + 1)]
        have h2 : receiveLoop o s3 cs maxC (i + 1) =
            (receiveLoop o (withQueue s3 []) cs maxC (i + 1)).map
              (fun r =>
                (withQueue r.1 (s3.commandQueue ++ r.1.commandQueue),
                 r.2.1, r.2.2)) := ih s3 s3.commandQueue maxC (i + 1)
        rw [h2]
        cases hb2 : receiveLoop o (withQueue s3 []) cs maxC (i + 1) with
        | error a => simp [Except.map]
        | ok r => simp [Except.map, withQueue]

/-- Model of `run_callbacks` ignores and preserves the deferred queue. -/
theorem runCallbacksS_queue (o : GraphOracle) (s : ControllerState)
    (q : List (Nat × Command)) :
    runCallbacksS o (withQueue s q) = withQueue (runCallbacksS o s) q := by
  rcases hc : o.currentTimeMusical with _ | cur <;>
    simp [runCallbacksS, hc, withQueue]

/-- Model of `run_maintenance` ignores and preserves the deferred queue. -/
theorem runMaintenance_queue (s : ControllerState)
    (q : List (Nat × Command)) :
    runMaintenance (withQueue s q) = withQueue (runMaintenance s) q := by
  simp [runMaintenance, logOp, withQueue]

/-- Model of `run` never reads the deferred queue. -/
theorem run_queue (o : GraphOracle) (s : ControllerState)
    (q : List (Nat × Command)) (chan : List Command) (maxC : Nat) :
    run o (withQueue s q) chan maxC =
      (run o (withQueue s []) chan maxC).map
        (fun r => (withQueue r.1 (q ++ r.1.commandQueue), r.2.1, r.2.2)) := by
  simp only [run, receiveAndApplyCommands]
  rw [runCallbacksS_queue o s q, runCallbacksS_queue o s []]
  rw [receiveLoop_queue o chan (runCallbacksS o s) q maxC 0]
  cases hb : receiveLoop o (withQueue (runCallbacksS o s) []) chan maxC 0 with
  | error a => simp [Except.map]
  | ok r => simp [Except.map, runMaintenance_queue, runMaintenance, logOp, withQueue]

/-- Claim C9: the deferred `command_queue` is append-only and inert.
Every Controller operation (`apply_command`,
`receive_and_apply_commands`, `run_callbacks`, `run_maintenance`,
`run`) computes the same thing whatever the queue holds, touching the
queue only by appending (`run_callbacks` and `run_maintenance` leave it
unchanged); consequently an entry, once enqueued, is never read,
removed or re-applied, and has no further effect on the graph-call log
or the resources ring. -/
theorem C9_deferred_queue_append_only (o : GraphOracle)
    (s : ControllerState) (q : List (Nat × Command)) (c : Command)
    (chan : List Command) (maxC : Nat) :
    (applyCommand o (withQueue s q) c =
      (applyCommand o (withQueue s []) c).map
        (fun s2 => withQueue s2 (q ++ s2.commandQueue))) ∧
    (receiveAndApplyCommands o (withQueue s q) chan maxC =
      (receiveAndApplyCommands o (withQueue s []) chan maxC).map
        (fun r => (withQueue r.1 (q ++ r.1.commandQueue), r.2.1, r.2.2))) ∧
    (runCallbacksS o (withQueue s q) = withQueue (runCallbacksS o s) q) ∧
    (runMaintenance (withQueue s q) = withQueue (runMaintenance s) q) ∧
    (run o (withQueue s q) chan maxC =
      (run o (withQueue s []) chan maxC).map
        (fun r => (withQueue r.1 (q ++ r.1.commandQueue), r.2.1, r.2.2))) ∧
    (∀ s2, applyCommand o s c = .ok s2 →
      ∃ t, s2.commandQueue = s.commandQueue ++ t) ∧
    (∀ s2 rest flag,
      receiveAndApplyCommands o s chan maxC = .ok (s2, rest, flag) →
      ∃ t, s2.commandQueue = s.commandQueue ++ t) ∧
    ((runCallbacksS o s).commandQueue = s.commandQueue) ∧
    ((runMaintenance s).commandQueue = s.commandQueue) ∧
    (∀ s2 rest flag, run o s chan maxC = .ok (s2, rest, flag) →
      ∃ t, s2.commandQueue = s.commandQueue ++ t) := by
  refine ⟨applyCommand_queue o s q c,
    receiveLoop_queue o chan s q maxC 0,
    runCallbacksS_queue o s q,
    runMaintenance_queue s q,
    run_queue o s q chan maxC, ?_, ?_, ?_, ?_, ?_⟩
  · intro s2 h
    have hn : applyCommand o s c =
        (applyCommand o (withQueue s []) c).map
          (fun s3 => withQueue s3 (s.commandQueue ++ s3.commandQueue)) :=
      applyCommand_queue o s s.commandQueue c
    rw [h] at hn
    cases hb : applyCommand o (withQueue s []) c with
    | error a => rw [hb] at hn; exact absurd hn (by simp [Except.map])
    | ok s3 =>
      rw [hb] at hn
      simp only [Except.map, Except.ok.injEq] at hn
      exact ⟨s3.commandQueue, by rw [hn]; rfl⟩
  · intro s2 rest flag h
    have hn : receiveAndApplyCommands o s chan maxC =
        (receiveAndApplyCommands o (withQueue s []) chan maxC).map
          (fun r =>
            (withQueue r.1 (s.commandQueue ++ r.1.commandQueue),
             r.2.1, r.2.2)) :=
      receiveLoop_queue o chan s s.commandQueue maxC 0
    rw [h] at hn
    cases hb : receiveAndApplyCommands o (withQueue s []) chan maxC with
    | error a => rw [hb] at hn; exact absurd hn (by simp [Except.map])
    | ok r =>
      rw [hb] at hn
      simp only [Except.map, Except.ok.injEq, Prod.mk.injEq] at hn
      exact ⟨r.1.commandQueue, by rw [hn.1]; rfl⟩
  · rcases hc : o.currentTimeMusical with _ | cur <;>
      simp [runCallbacksS, hc]
  · simp [runMaintenance, logOp]
  · intro s2 rest flag h
    have hn : run o s chan maxC =
        (run o (withQueue s []) chan maxC).map
          (fun r =>
            (withQueue r.1 (s.commandQueue ++ r.1.commandQueue),
             r.2.1, r.2.2)) :=
      run_queue o s s.commandQueue chan maxC
    rw [h] at hn
    cases hb : run o (withQueue s []) chan maxC with
    | error a => rw [hb] at hn; exact absurd hn (by simp [Except.map])
    | ok r =>
      rw [hb] at hn
      simp only [Except.map, Except.ok.injEq, Prod.mk.injEq] at hn
      exact ⟨r.1.commandQueue, by rw [hn.1]; rfl⟩

/-- Witness for claim C9: a deferring `Connect` appends one entry to an
initially empty queue, through `apply_command`,
`receive_and_apply_commands` and `run`. -/
theorem C9_witness :
    (∃ t, deferredConnectState.commandQueue =
      stateBase.commandQueue ++ t) ∧
    (∃ t, deferredConnectState.commandQueue =
      stateBase.commandQueue ++ t ∧ t = t) ∧
    (∃ t, (runMaintenance deferredConnectState).commandQueue =
      stateBase.commandQueue ++ t) := by
  have h := C9_deferred_queue_append_only oracleMixedErrors stateBase []
    (.connect 1) [.connect 1] 5
  refine ⟨h.2.2.2.2.2.1 deferredConnectState rfl, ?_,
    h.2.2.2.2.2.2.2.2.2 (runMaintenance deferredConnectState) [] true rfl⟩
  obtain ⟨t, ht⟩ :=
    h.2.2.2.2.2.2.1 deferredConnectState [] true rfl
  exact ⟨t, ht, rfl⟩

/-- Invariant of the reverse-index loop in `run_callbacks`: with `i`
indices left to visit (all of them below every index already visited),
the prefix `take i` gets processed element-wise while `drop i` is kept,
and the user closures of the fired, non-freed prefix entries are
invoked from the highest index down. -/
theorem runCallbacksLoop_inv (current : Superbeats) :
    ∀ (i : Nat) (cbs : List BeatCallback), i ≤ cbs.length →
      runCallbacksLoop current cbs i =
        ((cbs.take i).filterMap (claimStep current) ++ cbs.drop i,
         (((cbs.take i).filter (fun c => userFnInvoked current c)).map
            (fun c => c.next_timestamp)).reverse) := by
  intro i
  induction i with
  | zero => intro cbs _; simp [runCallbacksLoop]
  | succ i ih =>
    intro cbs h
    have hi : i < cbs.length := by omega
    have htake : cbs.take (i + 1) = cbs.take i ++ [cbs[i]] := by
      rw [List.take_succ, List.getElem?_eq_getElem hi]; rfl
    have hdrop : cbs.drop i = cbs[i] :: cbs.drop (i + 1) :=
      List.drop_eq_getElem_cons hi
    have hlen_take : (cbs.take i).length = i := by
      rw [List.length_take]; omega
    simp only [runCallbacksLoop, List.getElem?_eq_getElem hi]
    by_cases hfire : fireCond current cbs[i]
    · have hfire2 : cbs[i].next_timestamp < current ∨
          cbs[i].next_timestamp - current < quarterBeat := hfire
      rw [if_pos hfire]
      by_cases hfree : cbs[i].free_flag
      · -- free flag set: deleted, user closure not invoked
        have hrc : runCallback cbs[i] = (.deleteCb, false) := by
          simp [runCallback, hfree]
        rw [hrc]
        have herase : cbs.eraseIdx i = cbs.take i ++ cbs.drop (i + 1) :=
          List.eraseIdx_eq_take_drop_succ cbs i
        have h1 : (cbs.eraseIdx i).take i = cbs.take i := by
          rw [herase, List.take_left' hlen_take]
        have h2 : (cbs.eraseIdx i).drop i = cbs.drop (i + 1) := by
          rw [herase, List.drop_left' hlen_take]
        have hlen : i ≤ (cbs.eraseIdx i).length := by
          rw [herase, List.length_append, hlen_take]; omega
        have hstep : claimStep current cbs[i] = none := by
          unfold claimStep
          rw [if_pos hfire2]
          simp [hfree]
        have hinv : userFnInvoked current cbs[i] = false := by
          simp [userFnInvoked, hfree]
        have hfm : (cbs.take (i + 1)).filterMap (claimStep current) =
            (cbs.take i).filterMap (claimStep current) := by
          rw [htake, List.filterMap_append]
          simp [hstep]
        have hfl : (cbs.take (i + 1)).filter
              (fun c => userFnInvoked current c) =
            (cbs.take i).filter (fun c => userFnInvoked current c) := by
          rw [htake, List.filter_append]
          simp [hinv]
        rw [ih (cbs.eraseIdx i) hlen, h1, h2, hfm, hfl]
        simp
      · rcases hfn : cbs[i].userFn cbs[i].next_timestamp with _ | d
        · -- closure invoked, returns None: deleted
          have hrc : runCallback cbs[i] = (.deleteCb, true) := by
            simp [runCallback, hfree, hfn]
          rw [hrc]
          have herase : cbs.eraseIdx i = cbs.take i ++ cbs.drop (i + 1) :=
            List.eraseIdx_eq_take_drop_succ cbs i
          have h1 : (cbs.eraseIdx i).take i = cbs.take i := by
            rw [herase, List.take_left' hlen_take]
          have h2 : (cbs.eraseIdx i).drop i = cbs.drop (i + 1) := by
            rw [herase, List.drop_left' hlen_take]
          have hlen : i ≤ (cbs.eraseIdx i).length := by
            rw [herase, List.length_append, hlen_take]; omega
          have hstep : claimStep current cbs[i] = none := by
            unfold claimStep
            rw [if_pos hfire2]
            simp [hfree, hfn]
          have hinv : userFnInvoked current cbs[i] = true := by
            simp [userFnInvoked, hfree, hfire]
          have hfm : (cbs.take (i + 1)).filterMap (claimStep current) =
              (cbs.take i).filterMap (claimStep current) := by
            rw [htake, List.filterMap_append]
            simp [hstep]
          have hfl : (cbs.take (i + 1)).filter
                (fun c => userFnInvoked current c) =
              (cbs.take i).filter (fun c => userFnInvoked current c) ++
                [cbs[i]] := by
            rw [htake, List.filter_append]
            simp [hinv]
          rw [ih (cbs.eraseIdx i) hlen, h1, h2, hfm, hfl]
          simp
        · -- closure invoked, returns Some d: kept, timestamp advanced
          have hrc : runCallback cbs[i] =
              (.continueCb ⟨cbs[i].userFn,
                cbs[i].next_timestamp + d, cbs[i].free_flag⟩, true) := by
            simp [runCallback, hfree, hfn]
          rw [hrc]
          dsimp only
          have hset : cbs.set i ⟨cbs[i].userFn,
              cbs[i].next_timestamp + d, cbs[i].free_flag⟩ =
              cbs.take i ++ ⟨cbs[i].userFn,
                cbs[i].next_timestamp + d, cbs[i].free_flag⟩ ::
                cbs.drop (i + 1) :=
            List.set_eq_take_cons_drop _ hi
          have h1 : (cbs.set i ⟨cbs[i].userFn,
              cbs[i].next_timestamp + d, cbs[i].free_flag⟩).take i =
              cbs.take i := by
            rw [hset, List.take_left' hlen_take]
          have h2 : (cbs.set i ⟨cbs[i].userFn,
              cbs[i].next_timestamp + d, cbs[i].free_flag⟩).drop i =
              ⟨cbs[i].userFn, cbs[i].next_timestamp + d,
                cbs[i].free_flag⟩ :: cbs.drop (i + 1) := by
            rw [hset, List.drop_left' hlen_take]
          have hlen : i ≤ (cbs.set i ⟨cbs[i].userFn,
              cbs[i].next_timestamp + d, cbs[i].free_flag⟩).length := by
            rw [List.length_set]; omega
          have hstep : claimStep current cbs[i] =
              some ⟨cbs[i].userFn, cbs[i].next_timestamp + d,
                cbs[i].free_flag⟩ := by
            unfold claimStep
            rw [if_pos hfire2]
            simp [hfree, hfn]
          have hinv : userFnInvoked current cbs[i] = true := by
            simp [userFnInvoked, hfree, hfire]
          have hfm : (cbs.take (i + 1)).filterMap (claimStep current) =
              (cbs.take i).filterMap (claimStep current) ++
                [⟨cbs[i].userFn, cbs[i].next_timestamp + d,
                  cbs[i].free_flag⟩] := by
            rw [htake, List.filterMap_append]
            simp [hstep]
          have hfl : (cbs.take (i + 1)).filter
                (fun c => userFnInvoked current c) =
              (cbs.take i).filter (fun c => userFnInvoked current c) ++
                [cbs[i]] := by
            rw [htake, List.filter_append]
            simp [hinv]
          rw [ih _ hlen, h1, h2, hfm, hfl]
          simp
    · have hfire2 : ¬(cbs[i].next_timestamp < current ∨
          cbs[i].next_timestamp - current < quarterBeat) := hfire
      rw [if_neg hfire]
      have hstep : claimStep current cbs[i] = some cbs[i] := by
        unfold claimStep
        rw [if_neg hfire2]
      have hinv : userFnInvoked current cbs[i] = false := by
        simp [userFnInvoked, hfire]
      have hfm : (cbs.take (i + 1)).filterMap (claimStep current) =
          (cbs.take i).filterMap (claimStep current) ++ [cbs[i]] := by
        rw [htake, List.filterMap_append]
        simp [hstep]
      have hfl : (cbs.take (i + 1)).filter
            (fun c => userFnInvoked current c) =
          (cbs.take i).filter (fun c => userFnInvoked current c) := by
        rw [htake, List.filter_append]
        simp [hinv]
      rw [ih cbs (le_of_lt hi), hdrop, hfm, hfl]
      simp

/-- Claim C4: one `run_callbacks` pass at musical time `current`
processes each stored callback exactly by the rule `claimStep` (fire
when `next_timestamp < current` or within the 0.25-beat look-ahead;
freed callbacks are removed without invocation; `Some delta` advances
`next_timestamp` by `delta`; `None` removes), and the user closures
invoked are exactly those of the fired, non-freed callbacks. -/
theorem C4_run_callbacks_rule (current : Superbeats)
    (cbs : List BeatCallback) :
    runCallbacksList current cbs =
      (cbs.filterMap (claimStep current),
       ((cbs.filter (fun c => userFnInvoked current c)).map
          (fun c => c.next_timestamp)).reverse) := by
  have h := runCallbacksLoop_inv current cbs.length cbs (le_refl _)
  rw [runCallbacksList, h]
  simp

end Knyst
